import Mathlib

/-!
Verification development for the `borsh-gen-ts` crate: a Borsh schema to
TypeScript code generator.  The development shallowly embeds the crate's
core, the recursive IR resolver `build_roots` (src/builder.rs), the
supporting TS descriptor types (src/ts.rs) and the code emitter
`generate_ts` (src/generator.rs), and proves properties of the embedding.

Machine integers are modelled as `Nat`/`Int` with explicit reductions
where the source casts (`as u8` becomes `% 256`, `as u16` becomes
`% 65536`).  Panics (`todo!`, `unimplemented!`, `unwrap`, `assert!`) are
modelled as `Except` errors.  The unbounded recursion of `build_roots` is
modelled with an explicit fuel parameter; running out of fuel is the
distinguished error `Err.outOfFuel`, never confused with a source panic.
-/

namespace BorshGenTs

/-- Borsh schema `Fields` (from `borsh::schema::Fields`): named fields,
unnamed (tuple-struct) fields, or the empty field set. -/
inductive Fields where
  | named (fields : List (String × String))
  | unnamed (fields : List String)
  | empty
deriving DecidableEq, Repr

/-- Borsh schema `Definition` (from `borsh::schema::Definition`).  A
`sequence` carries `length_width` and the start of `length_range`
(only `length_range.start()` is read by the generator) and the element
declaration; an `enumDef` carries `tag_width` and the ordered variant list
`(discriminant : i64, variant name, payload declaration)`; a `structDef`
carries its field set. -/
inductive Definition where
  | primitive (size : Nat)
  | sequence (length_width : Nat) (length_start : Nat) (elements : String)
  | tuple (elements : List String)
  | enumDef (tag_width : Nat) (variants : List (Int × String × String))
  | structDef (fields : Fields)
deriving DecidableEq, Repr

/-- Schema container: the declaration-to-definition map
(`BorshSchemaContainer::get_definition`). -/
abbrev Schema := String → Option Definition

/-- The `Wellknowns` descriptor of src/ts.rs: a TS builtin needing no
generated declaration. -/
structure Wellknowns where
  borsh_ts : String
  ts : String
  fixed_array : Option Nat
  option : Bool
deriving DecidableEq, Repr

/-- Resolved IR node, `Target` of src/ts.rs; constructors are lower-cased
to avoid capturing the `Wellknowns` and `String` type names.
`cls` is `Target::Class`, flattening the source
`Class { ts_symbol, fields: Vec<Field> }`, where each `Field` is stored as
its `(name, target)` pair (the source `Field._option` flag is constructed
as `false` at the only construction site and never read).  `enum` is
`Target::Enum`, flattening `Enum { ts_symbol, variants: Vec<Variant> }`,
each `Variant` stored as `(ts_symbol, inner, discriminant)` with the `u8`
discriminant as a `Nat`.  `str` is `Target::String`. -/
inductive Target where
  | wellknowns (w : Wellknowns)
  | transparent (ts_name : String) (inner : Target)
  | cls (ts_symbol : String) (fields : List (String × Target))
  | enum (ts_symbol : String) (variants : List (String × Option Target × Nat))
  | str

/-- Error conditions of the run: the coded taxonomy of src/errors.rs that
the generator actually raises, plus the anonymous panics (`todo!`,
`unwrap` on a missing definition, the `assert!` in `insert`, the world
shape panic) and the fuel bound of the embedding. -/
inductive Err where
  | E0001
  | E0002
  | E0005
  | E0010
  | todoPrimitive (declaration : String)
  | todoSeqString
  | todoSeqEnum
  | todoWideEnum
  | missingDefinition (declaration : String)
  | duplicateInsert (declaration : String)
  | worldNotTuple
  | outOfFuel
deriving DecidableEq, Repr

/-- Parent context of src/builder.rs (`enum Parent`). -/
inductive Parent where
  | Enum
  | Struct
  | Irrelevant
deriving DecidableEq, Repr

/-- Resolution table: `ordermap::OrderMap<String, Target>`, modelled as an
association list in insertion order (OrderMap preserves insertion order;
its `remove` is order-preserving). -/
abbrev Table := List (String × Target)

/-- Key lookup, `OrderMap::get`. -/
def Table.get? : Table → String → Option Target
  | [], _ => none
  | (k, t) :: rest, d => if k = d then some t else Table.get? rest d

/-- Order-preserving removal of a key, `OrderMap::remove`. -/
def removeT : Table → String → Table
  | [], _ => []
  | (k, t) :: rest, d => if k = d then rest else (k, t) :: removeT rest d

/-- The `insert` helper of src/builder.rs: inserts and asserts the key was
absent (a duplicate insertion aborts the run), returning the target. -/
def insertT (generates : Table) (declaration : String) (target : Target) :
    Except Err (Target × Table) :=
  match Table.get? generates declaration with
  | some _ => .error (.duplicateInsert declaration)
  | none => .ok (target, generates ++ [(declaration, target)])

/-- Removal of every occurrence of the substring `NonZero`, scanning left
to right (the behaviour of Rust's `str::replace("NonZero", "")`),
implemented structurally over the character list. -/
def stripNonZero : List Char → List Char
  | 'N' :: 'o' :: 'n' :: 'Z' :: 'e' :: 'r' :: 'o' :: rest => stripNonZero rest
  | c :: rest => c :: stripNonZero rest
  | [] => []

/-- The `ts_non_zero` helper of src/ts.rs: strip `NonZero` and lower-case
(`nonzero.replace("NonZero", "").to_lowercase()`; the names involved are
ASCII, so per-character lower-casing matches). -/
def ts_non_zero (nonzero : String) : String :=
  String.mk ((stripNonZero nonzero.data).map Char.toLower)

/-- Constructor `Wellknowns::number`. -/
def Wellknowns.number (declaration : String) : Wellknowns :=
  { borsh_ts := declaration, ts := "number", fixed_array := none, option := false }

/-- Constructor `Wellknowns::boolean` (present in src/ts.rs, unused by the
builder). -/
def Wellknowns.boolean (declaration : String) : Wellknowns :=
  { borsh_ts := declaration, ts := "boolean", fixed_array := none, option := false }

/-- Constructor `Wellknowns::bigint`. -/
def Wellknowns.bigint (declaration : String) : Wellknowns :=
  { borsh_ts := declaration, ts := "bigint", fixed_array := none, option := false }

/-- Constructor `Wellknowns::fixed_length_array`: special-cases element
declaration `u8` to `Uint8Array`, otherwise display `<ts>[]`. -/
def Wellknowns.fixed_length_array (declaration : String) (fixed_length : Nat)
    (ts : String) : Wellknowns :=
  if declaration = "u8" then
    { borsh_ts := declaration, ts := "Uint8Array", fixed_array := some fixed_length,
      option := false }
  else
    { borsh_ts := declaration, ts := ts ++ "[]", fixed_array := some fixed_length,
      option := false }

/-- Constructor `Wellknowns::option` (named `optionOf` here because the
structure already has a field `option`): display `<ts> | undefined`,
option flag set. -/
def Wellknowns.optionOf (declaration : String) (ts : String) : Wellknowns :=
  { borsh_ts := declaration, ts := ts ++ " | undefined", fixed_array := none,
    option := true }

/-- Display name of a resolved target, `Target::ts_name` of src/ts.rs. -/
def Target.ts_name (t : Target) : String :=
  match t with
  | .wellknowns w => if w.option then w.ts ++ " | undefined" else w.ts
  | .transparent n _ => n
  | .cls s _ => s
  | .enum s _ => s
  | .str => "string"

/-- The big-integer primitive names of the first match arm of
`build_roots`. -/
def bigintNames : List String :=
  ["i64", "u64", "u128", "i128", "NonZeroU64", "NonZeroI64", "NonZeroU128",
   "NonZeroI128"]

/-- The number primitive names of the second match arm of `build_roots`. -/
def numberNames : List String :=
  ["u8", "u16", "u32", "i8", "i16", "i32", "NonZeroU8", "NonZeroU16",
   "NonZeroU32", "NonZeroI8", "NonZeroI16", "NonZeroI32"]

/-- Element display derivation of the fixed-length sequence branch of
`build_roots` (src/builder.rs lines 109-119): `Wellknowns.ts`,
`Class.ts_symbol`, one unwrap through `Transparent`, `todo!` on `String`
and `Enum`, `E0001` on a deeper `Transparent`. -/
def elementDisplay : Target → Except Err String
  | .wellknowns w => .ok w.ts
  | .cls s _ => .ok s
  | .transparent _ inner =>
    match inner with
    | .wellknowns w => .ok w.ts
    | .cls s _ => .ok s
    | _ => .error .E0001
  | .str => .error .todoSeqString
  | .enum _ _ => .error .todoSeqEnum

/-- One pass of the per-variant loop of the single-byte enum branch of
`build_roots` (src/builder.rs lines 138-166), parameterised by the
recursive resolver (which the caller instantiates with Union context):
look up the payload definition (`unwrap` on absence); an empty struct
payload yields no inner target; otherwise resolve the payload, then
remove its entry from the table; the variant is named `<name>Variant` and
its `i64` discriminant is cast to `u8` (mod 256). -/
def buildVariantsAux (schema : Schema)
    (resolve : String → Table → Except Err (Target × Table)) :
    List (Int × String × String) → Table →
      Except Err (List (String × Option Target × Nat) × Table)
  | [], g => .ok ([], g)
  | (discriminant, name, vdecl) :: rest, g => do
    let (inner, g1) ←
      match schema vdecl with
      | none => Except.error (Err.missingDefinition vdecl)
      | some (.structDef .empty) => Except.ok ((none : Option Target), g)
      | some _ => do
        let (t, g') ← resolve vdecl g
        Except.ok (some t, removeT g' vdecl)
    let (vs, g2) ← buildVariantsAux schema resolve rest g1
    .ok ((name ++ "Variant", inner, (discriminant % 256).toNat) :: vs, g2)

/-- The per-field loop of the named-struct branch of `build_roots`
(src/builder.rs lines 177-186), parameterised by the recursive resolver
(which the caller instantiates with Record context). -/
def buildFieldsAux (resolve : String → Table → Except Err (Target × Table)) :
    List (String × String) → Table →
      Except Err (List (String × Target) × Table)
  | [], g => .ok ([], g)
  | (name, declaration) :: rest, g => do
    let (t, g1) ← resolve declaration g
    let (fs, g2) ← buildFieldsAux resolve rest g1
    .ok ((name, t) :: fs, g2)

/-- One unfolding of the body of `build_roots` (src/builder.rs lines
54-220), parameterised by the function used for recursive calls.  The
branch order follows the source: memo hit, big-integer primitives, number
primitives, `bool`, the Option-wrapper guard (the `syn`-based
`parse_option_type` recogniser is the abstract parameter `po`; its
`Err`/`Ok(None)` outcomes both mean `none` here), then dispatch on the
looked-up definition. -/
def buildStep (po : String → Option String) (schema : Schema)
    (resolve : String → Table → Parent → Except Err (Target × Table))
    (declaration : String) (generates : Table) (parent : Parent) :
    Except Err (Target × Table) :=
  match Table.get? generates declaration with
  | some target => .ok (target, generates)
  | none =>
    if declaration ∈ bigintNames then
      insertT generates declaration
        (.wellknowns (Wellknowns.bigint (ts_non_zero declaration)))
    else if declaration ∈ numberNames then
      insertT generates declaration
        (.wellknowns (Wellknowns.number (ts_non_zero declaration)))
    else if declaration = "bool" then
      insertT generates declaration (.wellknowns (Wellknowns.number declaration))
    else
      match po declaration with
      | some type_parameter => do
        let (target, g1) ← resolve type_parameter generates .Irrelevant
        insertT g1 declaration
          (.wellknowns (Wellknowns.optionOf type_parameter target.ts_name))
      | none =>
        match schema declaration with
        | none => .error (.missingDefinition declaration)
        | some (.primitive _) => .error (.todoPrimitive declaration)
        | some (.sequence length_width length_start elements) =>
          if length_width = 0 then do
            let (field_target, g1) ← resolve elements generates .Irrelevant
            let ts ← elementDisplay field_target
            .ok (.wellknowns
              (Wellknowns.fixed_length_array elements (length_start % 65536) ts), g1)
          else
            .ok (.str, generates)
        | some (.tuple _) => .error .E0002
        | some (.enumDef tag_width variants) =>
          if tag_width = 1 then do
            let (ts_variants, g1) ← buildVariantsAux schema
              (fun x g => resolve x g .Enum) variants generates
            insertT g1 declaration (.enum (declaration ++ "Enum") ts_variants)
          else .error .todoWideEnum
        | some (.structDef fields) =>
          match fields with
          | .named fs => do
            let (ts_fields, g1) ← buildFieldsAux
              (fun x g => resolve x g .Struct) fs generates
            insertT g1 declaration (.cls declaration ts_fields)
          | .unnamed [inner] => do
            let (target, g1) ← resolve inner generates parent
            insertT g1 declaration
              (.transparent
                (match parent with
                 | .Enum => target.ts_name
                 | _ => declaration)
                target)
          | .unnamed _ => .error .E0010
          | .empty => .error .E0005

/-- The recursive resolver `build_roots`, with explicit fuel for the
source's unbounded recursion. -/
def buildRoots (po : String → Option String) (schema : Schema) :
    Nat → String → Table → Parent → Except Err (Target × Table)
  | 0, _, _, _ => .error .outOfFuel
  | fuel + 1, declaration, generates, parent =>
    buildStep po schema (buildRoots po schema fuel) declaration generates parent

/-- The per-root loop of `build_world` (src/builder.rs lines 29-38): each
world tuple element is resolved with `Parent::Irrelevant` against the one
shared table, the root targets collected in order. -/
def buildWorldAux (resolve : String → Table → Except Err (Target × Table)) :
    List String → Table → Except Err (List Target × Table)
  | [], g => .ok ([], g)
  | d :: rest, g => do
    let (t, g1) ← resolve d g
    let (ts, g2) ← buildWorldAux resolve rest g1
    .ok (t :: ts, g2)

/-- The `build_world` entry of src/builder.rs: the root declaration's
definition must be a tuple (`panic!("world must be tuple")` otherwise,
`expect` on a missing root); its elements are resolved into a fresh
table. -/
def buildWorld (po : String → Option String) (schema : Schema) (fuel : Nat)
    (root : String) : Except Err (List Target × Table) :=
  match schema root with
  | none => .error (.missingDefinition root)
  | some (.tuple elements) =>
    buildWorldAux (fun d g => buildRoots po schema fuel d g .Irrelevant) elements []
  | some _ => .error .worldNotTuple

/-- One class field of the `Target::Class` emission arm of `generate_ts`
(src/generator.rs lines 46-88): the `@field` annotation followed by the
`name: type;` member (the source's consecutive `write!` calls concatenate
with no separator; literal braces appear as they do in the emitted TS). -/
def emitClassField (fname : String) (t : Target) : String :=
  match t with
  | .wellknowns w =>
    let borsh_type :=
      match w.fixed_array with
      | some fixed_length =>
        "fixedArray(\"" ++ w.borsh_ts ++ "\", " ++ toString fixed_length ++ ")"
      | none =>
        if w.option then "option(\"" ++ w.borsh_ts ++ "\")"
        else "\"" ++ w.borsh_ts ++ "\""
    "@field(\x7btype: " ++ borsh_type ++ " \x7d)" ++ fname ++ ": " ++ w.ts ++ ";"
  | .str =>
    "@field(\x7btype: \x27string\x27 \x7d)" ++ fname ++ ": string;"
  | .cls s _ =>
    "@field(\x7btype: " ++ s ++ " \x7d)" ++ fname ++ ": " ++ s ++ ";"
  | .transparent n _ =>
    "@field(\x7btype: " ++ n ++ " \x7d)" ++ fname ++ ": " ++ n ++ ";"
  | .enum s _ =>
    "@field(\x7btype: " ++ s ++ " \x7d)" ++ fname ++ ": " ++ s ++ ";"

/-- The inner-target member of the `Target::Transparent` emission arm of
`generate_ts` (src/generator.rs lines 96-133).  A nested `Transparent`
inner hits `unimplemented!(Error::E0001)` — this is the one panic the
emitter can raise, and it fires after the entry's class header has been
written. -/
def emitTransparentInner (inner : Target) : Except Err String :=
  match inner with
  | .str =>
    .ok ("@field(\x7btype: \x27string\x27 \x7d)_0: string;")
  | .wellknowns w =>
    let borsh_type :=
      match w.fixed_array with
      | some fixed_length =>
        "fixedArray(\"" ++ w.borsh_ts ++ "\", " ++ toString fixed_length ++ ")"
      | none => w.borsh_ts
    .ok ("@field(\x7btype: " ++ borsh_type ++ " \x7d)_0: " ++ w.ts ++ ";")
  | .cls s _ =>
    .ok ("@field(\x7btype: \"" ++ s ++ "\" \x7d)_0: " ++ s ++ ";")
  | .transparent _ _ => .error .E0001
  | .enum s _ =>
    .ok ("@field(\x7btype: \"" ++ s ++ "\" \x7d)_0: " ++ s ++ ";")

/-- The `Target::Enum` emission arm of `generate_ts` (src/generator.rs
lines 139-163): the marker class tagged with every discriminant, then one
subclass per variant, the payload field's display name having the
enclosing union's name prefix (its symbol minus `Enum`) stripped. -/
def emitEnum (e_sym : String) (variants : List (String × Option Target × Nat)) :
    String :=
  "@variant([" ++ String.join (variants.map (fun v => toString v.2.2 ++ ",")) ++
    "])\n" ++
  "export class " ++ e_sym ++ " \x7b \x7d\n" ++
  String.join (variants.map (fun v =>
    "@variant(" ++ toString v.2.2 ++ ")\n" ++
    "export class " ++ v.1 ++ " extends " ++ e_sym ++ " \x7b\n" ++
    (match v.2.1 with
     | some t =>
       let cleanup := e_sym.replace "Enum" ""
       let cleanup := (Target.ts_name t).replace cleanup ""
       "@field(\x7btype: \"" ++ cleanup ++ "\" \x7d)\n" ++ "_0: " ++ cleanup ++ ";\n"
     | none => "") ++
    "\x7d\n"))

/-- Emission of one resolution-table entry by `generate_ts`, keyed by the
map key `ts_name` for classes and transparents as in the source.  The
result is the text written for the entry together with the panic, if any
(partial text before a panic is kept, since the source writes directly to
the output file). -/
def emitEntry (ts_name : String) (body : Target) : String × Option Err :=
  match body with
  | .wellknowns _ => ("", none)
  | .str => ("", none)
  | .cls _ fields =>
    ("export class " ++ ts_name ++ " \x7b " ++
      String.join (fields.map (fun f => emitClassField f.1 f.2)) ++
      "constructor(data: " ++ ts_name ++ ") \x7bObject.assign(this, data);\x7d \x7d",
     none)
  | .transparent _ inner =>
    let header := "export class " ++ ts_name ++ " \x7b "
    match emitTransparentInner inner with
    | .error e => (header, some e)
    | .ok s =>
      (header ++ s ++
        "constructor(data: " ++ ts_name ++ ") \x7bObject.assign(this, data);\x7d \x7d",
       none)
  | .enum s vs => (emitEnum s vs, none)

/-- The emission loop of `generate_ts` over the table in order, threading
the text written so far; a panic stops the loop, keeping the text already
written. -/
def emitEntries : Table → String → String × Option Err
  | [], acc => (acc, none)
  | (ts_name, body) :: rest, acc =>
    match emitEntry ts_name body with
    | (txt, some e) => (acc ++ txt, some e)
    | (txt, none) => emitEntries rest (acc ++ txt)

/-- The `generate_ts` entry of src/generator.rs: the output file is
created (deleting any stale file first), the import preamble written, then
every table entry in order.  The import preamble is the
`include_str!("./imports.ts")` constant `IMPORTS`; the file imports.ts is
not part of the sources here, so the preamble text is a parameter. -/
def generateTs (imports : String) (generates : Table) : String × Option Err :=
  emitEntries generates imports

/-- The whole generation pipeline (`nord_gen` of src/main.rs without the
fixed engine types): build the world, then — only if building succeeded —
create the output file and emit.  The first component is the output file's
content if the file was created at all (`none` means no file and hence no
partial output); the second is the abort error, if any. -/
def runGeneration (po : String → Option String) (schema : Schema) (fuel : Nat)
    (imports root : String) : Option String × Option Err :=
  match buildWorld po schema fuel root with
  | .error e => (none, some e)
  | .ok (_, generates) =>
    match generateTs imports generates with
    | (content, err) => (some content, err)

/-! Concrete schemas used to instantiate the theorems.  `po0` is a
concrete stand-in for the external `syn`-based recogniser
`parse_option_type` of src/parser.rs, agreeing with it on every
declaration name appearing in these schemas: `Option<T>` maps to `T`,
anything else (plain identifiers, `[T; N]`-style and `Vec<T>`-style
sequence names) to `none`. -/

/-- Concrete optional-wrapper recogniser for the example schemas:
`Option<T>` maps to `T`, anything else to `none`. -/
def po0 (s : String) : Option String :=
  match s.data with
  | 'O' :: 'p' :: 't' :: 'i' :: 'o' :: 'n' :: '<' :: rest =>
    match rest.getLast? with
    | some '>' => some (String.mk rest.dropLast)
    | _ => none
  | _ => none

/-- World `(S1, EnumA, S2)` where `S1` and `S2` both have a field of the
named struct `P` and `EnumA` has a variant whose payload is `P`. -/
def schemaShared : Schema := fun d =>
  if d = "World" then some (.tuple ["S1", "EnumA", "S2"])
  else if d = "World2" then some (.tuple ["S1", "EnumA"])
  else if d = "S1" then some (.structDef (.named [("x", "P")]))
  else if d = "S2" then some (.structDef (.named [("y", "P")]))
  else if d = "P" then some (.structDef (.named [("q", "u32")]))
  else if d = "EnumA" then some (.enumDef 1 [(0, "B", "P")])
  else none

/-- Enum `E { A(Q), B(R) }` where `R` has a field of `Q`: resolving `B`
re-inserts `A`'s already-removed payload `Q`. -/
def schemaReinsert : Schema := fun d =>
  if d = "E" then some (.enumDef 1 [(0, "A", "Q"), (1, "B", "R")])
  else if d = "Q" then some (.structDef (.named [("x", "u32")]))
  else if d = "R" then some (.structDef (.named [("q", "Q")]))
  else none

/-- Nested newtype wrappers `A(B)`, `B(u32)`, with `A` as the world
root. -/
def schemaNested : Schema := fun d =>
  if d = "World" then some (.tuple ["A"])
  else if d = "A" then some (.structDef (.unnamed ["B"]))
  else if d = "B" then some (.structDef (.unnamed ["u32"]))
  else none

/-- Fixed-length sequences: 70000 bytes, 32 bytes, and 3 elements of the
named struct `P`; `VecU8` is a variable-length byte sequence. -/
def schemaSeq : Schema := fun d =>
  if d = "Big" then some (.sequence 0 70000 "u8")
  else if d = "Arr32" then some (.sequence 0 32 "u8")
  else if d = "Arr3P" then some (.sequence 0 3 "P")
  else if d = "VecU8" then some (.sequence 4 0 "u8")
  else if d = "P" then some (.structDef (.named [("q", "u32")]))
  else none

/-- Worlds exercising the world-shape failures: a bare 2-tuple root
element, a 3-unnamed-field struct, a 2-byte-discriminant enum. -/
def schemaFail : Schema := fun d =>
  if d = "WT" then some (.tuple ["T2"])
  else if d = "T2" then some (.tuple ["u32", "u32"])
  else if d = "WS" then some (.tuple ["S3"])
  else if d = "S3" then some (.structDef (.unnamed ["u32", "u32", "u32"]))
  else if d = "WE" then some (.tuple ["E2"])
  else if d = "E2" then some (.enumDef 2 [(0, "A", "u32")])
  else none

/-- Single newtype wrapper `W(u64)`. -/
def schemaWrap : Schema := fun d =>
  if d = "W" then some (.structDef (.unnamed ["u64"])) else none

/-- Enum `E { A: empty, B(PB) }` with discriminants 0 and 1, `PB` a named
struct. -/
def schemaEnum : Schema := fun d =>
  if d = "E" then some (.enumDef 1 [(0, "A", "EmptyA"), (1, "B", "PB")])
  else if d = "EmptyA" then some (.structDef .empty)
  else if d = "PB" then some (.structDef (.named [("v", "u32")]))
  else none

/-- The stored target of the shared struct `P` of `schemaShared` and
`schemaReinsert`-style examples. -/
def targetP : Target :=
  .cls "P" [("q", .wellknowns
    { borsh_ts := "u32", ts := "number", fixed_array := none, option := false })]

/-- A table-evolution property: `f` carries `P` from the input table to
the output table of every successful call. -/
def Preserves (P : Table → Prop)
    (f : String → Table → Except Err (Target × Table)) : Prop :=
  ∀ x g t g', f x g = .ok (t, g') → P g → P g'

/-- The conditions under which `buildStep` can insert a key `x` into the
table: `x` is a primitive name, an Option-shaped name, or its definition
is an enum or a struct (sequences and tuples never insert their own
key). -/
def InsCond (po : String → Option String) (schema : Schema) (x : String) :
    Prop :=
  x ∈ bigintNames ∨ x ∈ numberNames ∨ x = "bool" ∨ (po x).isSome = true ∨
  (∃ tw vsd, schema x = some (.enumDef tw vsd)) ∨
  (∃ fs, schema x = some (.structDef fs))

/-- Key uniqueness of a table (the `OrderMap` invariant the source's
`insert` assertion maintains). -/
def UniqKeys (g : Table) : Prop := (g.map Prod.fst).Nodup

/-! Helper lemmas about the table and the `Except` monad. -/

theorem except_bind_ok {α β : Type} (a : α) (f : α → Except Err β) :
    (Except.ok a >>= f) = f a := rfl

theorem except_bind_error {α β : Type} (e : Err) (f : α → Except Err β) :
    ((Except.error e : Except Err α) >>= f) = Except.error e := rfl

theorem get?_append (g g2 : Table) (d : String) :
    Table.get? (g ++ g2) d =
      (match Table.get? g d with
       | some t => some t
       | none => Table.get? g2 d) := by
  induction g with
  | nil => simp [Table.get?]
  | cons p rest ih =>
    obtain ⟨k, t⟩ := p
    by_cases h : k = d <;> simp [Table.get?, h, ih]

theorem get?_append_single_ne {g : Table} {x d : String} {t : Target}
    (hne : x ≠ d) (hnone : Table.get? g d = none) :
    Table.get? (g ++ [(x, t)]) d = none := by
  rw [get?_append, hnone]
  simp [Table.get?, hne]

theorem get?_removeT_of_none {g : Table} {d x : String}
    (h : Table.get? g d = none) : Table.get? (removeT g x) d = none := by
  induction g with
  | nil => simpa [removeT] using h
  | cons p rest ih =>
    obtain ⟨k, t⟩ := p
    by_cases hk : k = x
    · simp only [removeT, if_pos hk]
      simp only [Table.get?] at h
      split at h
      · exact absurd h (by simp)
      · exact h
    · simp only [removeT, if_neg hk]
      simp only [Table.get?] at h ⊢
      split at h
      · exact absurd h (by simp)
      · rename_i hkd
        rw [if_neg hkd]
        exact ih h

theorem insertT_ok {g : Table} {d : String} {t t' : Target} {g' : Table}
    (h : insertT g d t = .ok (t', g')) :
    t' = t ∧ g' = g ++ [(d, t)] ∧ Table.get? g d = none := by
  unfold insertT at h
  split at h
  · exact absurd h (by simp)
  · rename_i hnone
    refine ⟨?_, ?_, hnone⟩ <;> · injection h with h'; cases h'; rfl

theorem insertT_of_none {g : Table} {d : String} {t : Target}
    (h : Table.get? g d = none) :
    insertT g d t = .ok (t, g ++ [(d, t)]) := by
  unfold insertT
  rw [h]

theorem insertT_of_some {g : Table} {d : String} {t t0 : Target}
    (h : Table.get? g d = some t0) :
    insertT g d t = .error (.duplicateInsert d) := by
  unfold insertT
  rw [h]

theorem get?_eq_none_iff {g : Table} {d : String} :
    Table.get? g d = none ↔ d ∉ g.map Prod.fst := by
  induction g with
  | nil => simp [Table.get?]
  | cons p rest ih =>
    obtain ⟨k, t⟩ := p
    by_cases h : k = d
    · subst h
      simp [Table.get?]
    · simp [Table.get?, h, ih, Ne.symm h]

theorem removeT_keys_sublist (g : Table) (x : String) :
    ((removeT g x).map Prod.fst).Sublist (g.map Prod.fst) := by
  induction g with
  | nil => simp [removeT]
  | cons p rest ih =>
    obtain ⟨k, t⟩ := p
    by_cases h : k = x
    · simp only [removeT, if_pos h, List.map_cons]
      exact List.sublist_cons_self _ _
    · simp only [removeT, if_neg h, List.map_cons]
      exact ih.cons₂ k

theorem UniqKeys_removeT {g : Table} {x : String} (h : UniqKeys g) :
    UniqKeys (removeT g x) :=
  (removeT_keys_sublist g x).nodup h

theorem UniqKeys_append {g : Table} {x : String} {t : Target}
    (h : UniqKeys g) (hnone : Table.get? g x = none) :
    UniqKeys (g ++ [(x, t)]) := by
  have hx : x ∉ g.map Prod.fst := get?_eq_none_iff.mp hnone
  simp only [UniqKeys, List.map_append, List.map_cons, List.map_nil]
  rw [List.nodup_append]
  refine ⟨h, List.nodup_singleton x, ?_⟩
  intro a ha hax
  simp only [List.mem_singleton] at hax
  exact hx (hax ▸ ha)

theorem get?_removeT_self {g : Table} {x : String} (h : UniqKeys g) :
    Table.get? (removeT g x) x = none := by
  induction g with
  | nil => simp [removeT, Table.get?]
  | cons p rest ih =>
    obtain ⟨k, t⟩ := p
    simp only [UniqKeys, List.map_cons, List.nodup_cons] at h
    by_cases hk : k = x
    · simp only [removeT, if_pos hk]
      rw [get?_eq_none_iff]
      exact hk ▸ h.1
    · simp only [removeT, if_neg hk, Table.get?, if_neg hk]
      exact ih h.2

/-- C9: resolving a declaration that already has a resolution-table entry
returns a copy of that stored target immediately, for every fuel bound
and under every parent context, with the table unchanged (no new
insertion); and any attempt to insert a second entry for a key already
present aborts the run with the duplicate-insert defect. -/
theorem memo_hit_returns_stored_copy
    (po : String → Option String) (schema : Schema) (d : String) (g : Table)
    (t : Target) (hmem : Table.get? g d = some t) :
    (∀ fuel parent,
        buildRoots po schema (fuel + 1) d g parent = .ok (t, g)) ∧
    (∀ t', insertT g d t' = .error (.duplicateInsert d)) := by
  constructor
  · intro fuel parent
    simp only [buildRoots, buildStep, hmem]
  · intro t'
    exact insertT_of_some hmem

/-- Witness for `memo_hit_returns_stored_copy` at a concrete table. -/
theorem memo_hit_returns_stored_copy_witness :
    buildRoots po0 schemaWrap 1 "Z" [("Z", .str)] .Struct =
      .ok (.str, [("Z", .str)]) ∧
    insertT [("Z", .str)] "Z" .str = .error (.duplicateInsert "Z") := by
  have h := memo_hit_returns_stored_copy po0 schemaWrap "Z" [("Z", .str)] .str
    (by rfl)
  exact ⟨h.1 0 .Struct, h.2 .str⟩

/-- C5: resolving a single-unnamed-field (newtype) struct resolves the
inner declaration under the caller's own parent context unchanged, and
wraps the result as an Alias inserted under the wrapper's declaration
name, whose display name is the inner target's display name when the
incoming context is Union and the wrapper's declaration name when it is
Record or Unspecified. -/
theorem newtype_wrapper_alias
    (po : String → Option String) (schema : Schema) (fuel : Nat)
    (d inner : String) (g g1 : Table) (parent : Parent) (t : Target)
    (hmem : Table.get? g d = none)
    (hbig : d ∉ bigintNames) (hnum : d ∉ numberNames) (hbool : ¬ d = "bool")
    (hpo : po d = none)
    (hdef : schema d = some (.structDef (.unnamed [inner])))
    (hrec : buildRoots po schema fuel inner g parent = .ok (t, g1))
    (hfresh : Table.get? g1 d = none) :
    buildRoots po schema (fuel + 1) d g parent =
      .ok (.transparent (if parent = .Enum then t.ts_name else d) t,
        g1 ++ [(d, .transparent (if parent = .Enum then t.ts_name else d) t)]) := by
  have hstep :
      buildRoots po schema (fuel + 1) d g parent =
        buildStep po schema (buildRoots po schema fuel) d g parent := rfl
  rw [hstep]
  unfold buildStep
  rw [hmem, if_neg hbig, if_neg hnum, if_neg hbool, hpo, hdef]
  simp only [hrec, except_bind_ok]
  rw [insertT_of_none hfresh]
  cases parent <;> rfl

/-- Witness for `newtype_wrapper_alias`: the wrapper `W(u64)` under Union
context surfaces the inner display `bigint`; under Record context it
keeps its own declaration name `W`. -/
theorem newtype_wrapper_alias_witness :
    buildRoots po0 schemaWrap 2 "W" [] .Enum =
      .ok (.transparent "bigint" (.wellknowns (Wellknowns.bigint "u64")),
        [("u64", .wellknowns (Wellknowns.bigint "u64")),
         ("W", .transparent "bigint" (.wellknowns (Wellknowns.bigint "u64")))]) ∧
    buildRoots po0 schemaWrap 2 "W" [] .Struct =
      .ok (.transparent "W" (.wellknowns (Wellknowns.bigint "u64")),
        [("u64", .wellknowns (Wellknowns.bigint "u64")),
         ("W", .transparent "W" (.wellknowns (Wellknowns.bigint "u64")))]) := by
  constructor
  · exact newtype_wrapper_alias po0 schemaWrap 1 "W" "u64" [] _ .Enum _
      (by rfl) (by decide) (by decide) (by decide) (by rfl) (by rfl) (by rfl)
      (by rfl)
  · exact newtype_wrapper_alias po0 schemaWrap 1 "W" "u64" [] _ .Struct _
      (by rfl) (by decide) (by decide) (by decide) (by rfl) (by rfl) (by rfl)
      (by rfl)

/-- C7: a declaration the recogniser reports as `Option<T>` resolves `T`
under Unspecified context and produces a WellKnown with display
`<T display> | undefined` and the optional flag set, inserted under the
original Option-shaped declaration name. -/
theorem option_wrapper_wellknown
    (po : String → Option String) (schema : Schema) (fuel : Nat)
    (d tp : String) (g g1 : Table) (parent : Parent) (t : Target)
    (hmem : Table.get? g d = none)
    (hbig : d ∉ bigintNames) (hnum : d ∉ numberNames) (hbool : ¬ d = "bool")
    (hpo : po d = some tp)
    (hrec : buildRoots po schema fuel tp g .Irrelevant = .ok (t, g1))
    (hfresh : Table.get? g1 d = none) :
    buildRoots po schema (fuel + 1) d g parent =
      .ok (.wellknowns (Wellknowns.optionOf tp t.ts_name),
        g1 ++ [(d, .wellknowns (Wellknowns.optionOf tp t.ts_name))]) ∧
    (Wellknowns.optionOf tp t.ts_name).ts = t.ts_name ++ " | undefined" ∧
    (Wellknowns.optionOf tp t.ts_name).option = true := by
  refine ⟨?_, rfl, rfl⟩
  have hstep :
      buildRoots po schema (fuel + 1) d g parent =
        buildStep po schema (buildRoots po schema fuel) d g parent := rfl
  rw [hstep]
  unfold buildStep
  rw [hmem, if_neg hbig, if_neg hnum, if_neg hbool, hpo]
  simp only [hrec, except_bind_ok]
  rw [insertT_of_none hfresh]

/-- Witness for `option_wrapper_wellknown`: `Option<u32>` resolves to a
WellKnown with display `number | undefined` and the optional flag set. -/
theorem option_wrapper_wellknown_witness :
    buildRoots po0 schemaWrap 2 "Option<u32>" [] .Irrelevant =
      .ok (.wellknowns (Wellknowns.optionOf "u32" "number"),
        [("u32", .wellknowns (Wellknowns.number "u32")),
         ("Option<u32>", .wellknowns (Wellknowns.optionOf "u32" "number"))]) ∧
    (Wellknowns.optionOf "u32" "number").ts = "number | undefined" ∧
    (Wellknowns.optionOf "u32" "number").option = true := by
  exact option_wrapper_wellknown po0 schemaWrap 1 "Option<u32>" "u32" [] _
    .Irrelevant _ (by rfl) (by decide) (by decide) (by decide) (by rfl)
    (by rfl) (by rfl)

/-- C2: the first-insertion order of the completed table is not a valid
dependency order.  In the world `(S1, EnumA, S2)` of `schemaShared`, the
struct `P` is first inserted while resolving `S1`, removed again when
`EnumA`'s variant payload `P` is resolved (memo hit followed by the
payload removal), and re-inserted at the end while resolving `S2`: the
completed table is `[u32, S1, EnumA, P, S2]`, where the entry `S1` stores
a Record whose field references exactly the target stored under `P`,
which only appears after `S1`.  In the two-root world `(S1, EnumA)` of
the same schema, `P` is missing from the completed table entirely even
though `S1`'s stored Record still references it. -/
theorem insertion_order_not_dependency_order :
    (buildWorld po0 schemaShared 10 "World").map (fun pr => pr.2.map Prod.fst) =
      .ok ["u32", "S1", "EnumA", "P", "S2"] ∧
    (buildWorld po0 schemaShared 10 "World").map
        (fun pr => Table.get? pr.2 "S1") =
      .ok (some (.cls "S1" [("x", targetP)])) ∧
    (buildWorld po0 schemaShared 10 "World").map
        (fun pr => Table.get? pr.2 "P") =
      .ok (some targetP) ∧
    (buildWorld po0 schemaShared 10 "World2").map (fun pr => pr.2.map Prod.fst) =
      .ok ["u32", "S1", "EnumA"] ∧
    (buildWorld po0 schemaShared 10 "World2").map
        (fun pr => Table.get? pr.2 "S1") =
      .ok (some (.cls "S1" [("x", targetP)])) ∧
    (buildWorld po0 schemaShared 10 "World2").map
        (fun pr => Table.get? pr.2 "P") =
      .ok none :=
  ⟨rfl, rfl, rfl, rfl, rfl, rfl⟩

/-- C3 counterexample: resolving the wrapper-of-wrapper `A(B(u32))` of
`schemaNested` is not rejected by the resolver — it succeeds and returns
an un-flattened Alias-of-Alias target, inserted into the table. -/
theorem nested_alias_accepted_by_resolver :
    buildRoots po0 schemaNested 10 "A" [] .Irrelevant =
      .ok (.transparent "A"
          (.transparent "B" (.wellknowns (Wellknowns.number "u32"))),
        [("u32", .wellknowns (Wellknowns.number "u32")),
         ("B", .transparent "B" (.wellknowns (Wellknowns.number "u32"))),
         ("A", .transparent "A"
          (.transparent "B" (.wellknowns (Wellknowns.number "u32"))))]) ∧
    buildRoots po0 schemaNested 10 "A" [] .Irrelevant ≠
      .error .E0001 := by
  have h0 : buildRoots po0 schemaNested 10 "A" [] .Irrelevant =
      .ok (.transparent "A"
          (.transparent "B" (.wellknowns (Wellknowns.number "u32"))),
        [("u32", .wellknowns (Wellknowns.number "u32")),
         ("B", .transparent "B" (.wellknowns (Wellknowns.number "u32"))),
         ("A", .transparent "A"
          (.transparent "B" (.wellknowns (Wellknowns.number "u32"))))]) := rfl
  refine ⟨h0, ?_⟩
  intro h
  rw [h0] at h
  exact Except.noConfusion h

/-- C3 (amended): the resolver accepts a single-unnamed-field wrapper
whose inner resolved target is itself an Alias, returning the layered
Alias-of-Alias unflattened; E0001 is raised instead by the emitter when
such a table entry is emitted (after the entry's class header is already
written), and by the fixed-length-sequence element-display derivation. -/
theorem nested_alias_rejected_by_emitter :
    buildRoots po0 schemaNested 10 "A" [] .Irrelevant =
      .ok (.transparent "A"
          (.transparent "B" (.wellknowns (Wellknowns.number "u32"))),
        [("u32", .wellknowns (Wellknowns.number "u32")),
         ("B", .transparent "B" (.wellknowns (Wellknowns.number "u32"))),
         ("A", .transparent "A"
          (.transparent "B" (.wellknowns (Wellknowns.number "u32"))))]) ∧
    (∀ (key nm s2 : String) (t2 : Target),
      emitEntry key (.transparent nm (.transparent s2 t2)) =
        ("export class " ++ key ++ " \x7b ", some .E0001)) ∧
    (∀ (nm s2 : String) (t2 : Target),
      elementDisplay (.transparent nm (.transparent s2 t2)) =
        .error .E0001) :=
  ⟨rfl, fun _ _ _ _ => rfl, fun _ _ _ => rfl⟩

/-- C1 counterexample: for the Alias-of-Alias world of `schemaNested`,
generation fails with the taxonomy error E0001, yet the output file was
created and holds partial output (the import preamble, the full class `B`
and the header of class `A`). -/
theorem emitter_error_leaves_partial_output :
    runGeneration po0 schemaNested 10 "IMP;" "World" =
      (some ("IMP;export class B \x7b @field(\x7btype: u32 \x7d)_0: number;" ++
        "constructor(data: B) \x7bObject.assign(this, data);\x7d \x7d" ++
        "export class A \x7b "), some .E0001) ∧
    ("IMP;export class B \x7b @field(\x7btype: u32 \x7d)_0: number;" ++
        "constructor(data: B) \x7bObject.assign(this, data);\x7d \x7d" ++
        "export class A \x7b ") ≠ "IMP;" :=
  ⟨rfl, by decide⟩

/-- C1 (amended): every failure raised while building the world aborts
before the output file is created, leaving no output and no partial
output; in particular resolving a bare tuple fails with E0002, a
three-unnamed-field struct with E0010, and a two-byte-discriminant enum
with the reserved case, all with no output — but E0001 raised by the
emitter is the exception, firing only after bytes have been written. -/
theorem build_failure_produces_no_output :
    (∀ (po : String → Option String) (schema : Schema) (fuel : Nat)
        (imports root : String) (e : Err),
      buildWorld po schema fuel root = .error e →
      runGeneration po schema fuel imports root = (none, some e)) ∧
    runGeneration po0 schemaFail 10 "IMP;" "WT" = (none, some .E0002) ∧
    runGeneration po0 schemaFail 10 "IMP;" "WS" = (none, some .E0010) ∧
    runGeneration po0 schemaFail 10 "IMP;" "WE" = (none, some .todoWideEnum) := by
  refine ⟨?_, rfl, rfl, rfl⟩
  intro po schema fuel imports root e h
  unfold runGeneration
  rw [h]

/-- Witness for `build_failure_produces_no_output`: its universally
quantified part applied at a concrete failing world. -/
theorem build_failure_produces_no_output_witness :
    runGeneration po0 schemaFail 10 "IMP;" "Missing" =
      (none, some (.missingDefinition "Missing")) :=
  build_failure_produces_no_output.1 po0 schemaFail 10 "IMP;" "Missing"
    (.missingDefinition "Missing") (by rfl)

/-- C8 counterexample: a fixed-length sequence of 70000 bytes resolves to
a WellKnown whose fixed-array length is 4464, not the length-range start
70000 — the source casts the `u64` start to `u16`. -/
theorem fixed_length_truncated_to_u16 :
    buildRoots po0 schemaSeq 10 "Big" [] .Irrelevant =
      .ok (.wellknowns (Wellknowns.fixed_length_array "u8" 4464 "number"),
        [("u8", .wellknowns (Wellknowns.number "u8"))]) ∧
    (Wellknowns.fixed_length_array "u8" 4464 "number").fixed_array =
      some 4464 ∧
    (4464 : Nat) ≠ 70000 ∧ 70000 % 65536 = 4464 :=
  ⟨rfl, rfl, by decide, rfl⟩

/-- C8 (amended): a fixed-length sequence (`length_width = 0`) resolves
to a WellKnown, not inserted into the table, whose fixed-array length is
the length-range start reduced modulo 65536 and whose display name is
derived from the element's resolved target as `<element display>[]`,
special-cased to `Uint8Array` when the element declaration is `u8`. -/
theorem fixed_sequence_wellknown
    (po : String → Option String) (schema : Schema) (fuel : Nat)
    (d el : String) (ls : Nat) (g g1 : Table) (parent : Parent)
    (ft : Target) (ts : String)
    (hmem : Table.get? g d = none)
    (hbig : d ∉ bigintNames) (hnum : d ∉ numberNames) (hbool : ¬ d = "bool")
    (hpo : po d = none)
    (hdef : schema d = some (.sequence 0 ls el))
    (hrec : buildRoots po schema fuel el g .Irrelevant = .ok (ft, g1))
    (hdisp : elementDisplay ft = .ok ts) :
    buildRoots po schema (fuel + 1) d g parent =
      .ok (.wellknowns (Wellknowns.fixed_length_array el (ls % 65536) ts),
        g1) ∧
    (∀ (n : Nat) (s : String), (Wellknowns.fixed_length_array "u8" n s).ts =
      "Uint8Array" ∧ (Wellknowns.fixed_length_array "u8" n s).fixed_array =
      some n) ∧
    (∀ (e : String) (n : Nat) (s : String), ¬ e = "u8" →
      (Wellknowns.fixed_length_array e n s).ts = s ++ "[]" ∧
      (Wellknowns.fixed_length_array e n s).fixed_array = some n) := by
  refine ⟨?_, fun n s => ⟨rfl, rfl⟩, fun e n s h => ?_⟩
  · have hstep :
        buildRoots po schema (fuel + 1) d g parent =
          buildStep po schema (buildRoots po schema fuel) d g parent := rfl
    rw [hstep]
    unfold buildStep
    rw [hmem, if_neg hbig, if_neg hnum, if_neg hbool, hpo, hdef]
    simp only [if_pos rfl, hrec, except_bind_ok, hdisp]
    rfl
  · unfold Wellknowns.fixed_length_array
    rw [if_neg h]
    exact ⟨rfl, rfl⟩

/-- Witness for `fixed_sequence_wellknown`: a 32-byte fixed sequence
yields display `Uint8Array` with fixed length 32 and the table unchanged
beyond the element; a 3-element sequence of the named record `P` yields
display `P[]` with fixed length 3. -/
theorem fixed_sequence_wellknown_witness :
    buildRoots po0 schemaSeq 2 "Arr32" [] .Irrelevant =
      .ok (.wellknowns (Wellknowns.fixed_length_array "u8" 32 "number"),
        [("u8", .wellknowns (Wellknowns.number "u8"))]) ∧
    (Wellknowns.fixed_length_array "u8" 32 "number").ts = "Uint8Array" ∧
    buildRoots po0 schemaSeq 3 "Arr3P" [] .Irrelevant =
      .ok (.wellknowns (Wellknowns.fixed_length_array "P" 3 "P"),
        [("u32", .wellknowns (Wellknowns.number "u32")),
         ("P", .cls "P" [("q", .wellknowns (Wellknowns.number "u32"))])]) ∧
    (Wellknowns.fixed_length_array "P" 3 "P").ts = "P[]" := by
  refine ⟨?_, rfl, ?_, rfl⟩
  · exact (fixed_sequence_wellknown po0 schemaSeq 1 "Arr32" "u8" 32 [] _
      .Irrelevant _ "number" (by rfl) (by decide) (by decide) (by decide)
      (by rfl) (by rfl) (by rfl) (by rfl)).1
  · exact (fixed_sequence_wellknown po0 schemaSeq 2 "Arr3P" "P" 3 [] _
      .Irrelevant _ "P" (by rfl) (by decide) (by decide) (by decide)
      (by rfl) (by rfl) (by rfl) (by rfl)).1

theorem buildVariantsAux_shape (schema : Schema)
    (resolve : String → Table → Except Err (Target × Table)) :
    ∀ (vdefs : List (Int × String × String)) (g : Table)
      (vs : List (String × Option Target × Nat)) (g1 : Table),
      buildVariantsAux schema resolve vdefs g = .ok (vs, g1) →
      vs.map (fun v => (v.1, v.2.2)) =
        vdefs.map (fun w => (w.2.1 ++ "Variant", (w.1 % 256).toNat)) ∧
      List.Forall₂
        (fun (w : Int × String × String) (v : String × Option Target × Nat) =>
          schema w.2.2 = some (.structDef .empty) → v.2.1 = none) vdefs vs := by
  intro vdefs
  induction vdefs with
  | nil =>
    intro g vs g1 h
    simp only [buildVariantsAux, Except.ok.injEq, Prod.mk.injEq] at h
    obtain ⟨h1, h2⟩ := h
    subst h1
    exact ⟨rfl, List.Forall₂.nil⟩
  | cons w rest ih =>
    intro g vs g1 h
    obtain ⟨disc, name, vdecl⟩ := w
    simp only [buildVariantsAux] at h
    split at h
    · rw [except_bind_error] at h
      exact Except.noConfusion h
    · rename_i heq
      rw [except_bind_ok] at h
      cases hrest : buildVariantsAux schema resolve rest g with
      | error e =>
        rw [hrest, except_bind_error] at h
        exact Except.noConfusion h
      | ok p =>
        obtain ⟨vs', g2⟩ := p
        rw [hrest, except_bind_ok] at h
        simp only [Except.ok.injEq, Prod.mk.injEq] at h
        obtain ⟨h1, h2⟩ := h
        subst h1
        obtain ⟨ihm, ihf⟩ := ih g vs' g2 hrest
        exact ⟨by simp [ihm], List.Forall₂.cons (fun _ => rfl) ihf⟩
    · rename_i hno hsome
      cases hres : resolve vdecl g with
      | error e =>
        rw [hres] at h
        exact Except.noConfusion h
      | ok q =>
        obtain ⟨t, g'⟩ := q
        rw [hres] at h
        simp only [except_bind_ok] at h
        cases hrest : buildVariantsAux schema resolve rest (removeT g' vdecl) with
        | error e =>
          rw [hrest] at h
          exact Except.noConfusion h
        | ok p =>
          obtain ⟨vs', g2⟩ := p
          rw [hrest] at h
          simp only [except_bind_ok, Except.ok.injEq, Prod.mk.injEq] at h
          obtain ⟨h1, h2⟩ := h
          subst h1
          obtain ⟨ihm, ihf⟩ := ih (removeT g' vdecl) vs' g2 hrest
          refine ⟨by simp [ihm], List.Forall₂.cons ?_ ihf⟩
          intro hempty
          rw [hsome] at hempty
          injection hempty with hval
          exact (hno hval).elim

/-- C6: a single-byte-discriminant enum resolves to a Union target named
`<declaration>Enum`, inserted under the enum's declaration name and
returned; its variants appear in schema order, named `<variant>Variant`
with the `i64` discriminant cast to an 8-bit value, and a variant whose
payload definition is an empty struct carries no inner target. -/
theorem enum_union_resolution
    (po : String → Option String) (schema : Schema) (fuel : Nat)
    (d : String) (vdefs : List (Int × String × String)) (g g1 : Table)
    (parent : Parent) (vs : List (String × Option Target × Nat))
    (hmem : Table.get? g d = none)
    (hbig : d ∉ bigintNames) (hnum : d ∉ numberNames) (hbool : ¬ d = "bool")
    (hpo : po d = none)
    (hdef : schema d = some (.enumDef 1 vdefs))
    (hvar : buildVariantsAux schema
      (fun x g => buildRoots po schema fuel x g .Enum) vdefs g = .ok (vs, g1))
    (hfresh : Table.get? g1 d = none) :
    buildRoots po schema (fuel + 1) d g parent =
      .ok (.enum (d ++ "Enum") vs, g1 ++ [(d, .enum (d ++ "Enum") vs)]) ∧
    vs.map (fun v => (v.1, v.2.2)) =
      vdefs.map (fun w => (w.2.1 ++ "Variant", (w.1 % 256).toNat)) ∧
    List.Forall₂
      (fun (w : Int × String × String) (v : String × Option Target × Nat) =>
        schema w.2.2 = some (.structDef .empty) → v.2.1 = none) vdefs vs := by
  have hshape := buildVariantsAux_shape schema
    (fun x g => buildRoots po schema fuel x g .Enum) vdefs g vs g1 hvar
  refine ⟨?_, hshape.1, hshape.2⟩
  have hstep :
      buildRoots po schema (fuel + 1) d g parent =
        buildStep po schema (buildRoots po schema fuel) d g parent := rfl
  rw [hstep]
  unfold buildStep
  rw [hmem, if_neg hbig, if_neg hnum, if_neg hbool, hpo, hdef]
  simp only [if_pos rfl, hvar, except_bind_ok]
  rw [insertT_of_none hfresh]
  exact if_pos trivial

theorem buildWorldAux_preserves {P : Table → Prop}
    {f : String → Table → Except Err (Target × Table)}
    (hf : Preserves P f) :
    ∀ (ds : List String) (g : Table) (out : List Target) (g' : Table),
      buildWorldAux f ds g = .ok (out, g') → P g → P g' := by
  intro ds
  induction ds with
  | nil =>
    intro g out g' h hP
    simp only [buildWorldAux, Except.ok.injEq, Prod.mk.injEq] at h
    exact h.2 ▸ hP
  | cons d rest ih =>
    intro g out g' h hP
    simp only [buildWorldAux] at h
    cases hr : f d g with
    | error e =>
      rw [hr] at h
      exact Except.noConfusion h
    | ok q =>
      obtain ⟨t, g1⟩ := q
      rw [hr] at h
      simp only [except_bind_ok] at h
      cases hrest : buildWorldAux f rest g1 with
      | error e =>
        rw [hrest] at h
        exact Except.noConfusion h
      | ok p =>
        obtain ⟨ts, g2⟩ := p
        rw [hrest] at h
        simp only [except_bind_ok, Except.ok.injEq, Prod.mk.injEq] at h
        exact h.2 ▸ ih g1 ts g2 hrest (hf d g t g1 hr hP)

theorem buildFieldsAux_preserves {P : Table → Prop}
    {f : String → Table → Except Err (Target × Table)}
    (hf : Preserves P f) :
    ∀ (fs : List (String × String)) (g : Table)
      (out : List (String × Target)) (g' : Table),
      buildFieldsAux f fs g = .ok (out, g') → P g → P g' := by
  intro fs
  induction fs with
  | nil =>
    intro g out g' h hP
    simp only [buildFieldsAux, Except.ok.injEq, Prod.mk.injEq] at h
    exact h.2 ▸ hP
  | cons fld rest ih =>
    intro g out g' h hP
    obtain ⟨name, d⟩ := fld
    simp only [buildFieldsAux] at h
    cases hr : f d g with
    | error e =>
      rw [hr] at h
      exact Except.noConfusion h
    | ok q =>
      obtain ⟨t, g1⟩ := q
      rw [hr] at h
      simp only [except_bind_ok] at h
      cases hrest : buildFieldsAux f rest g1 with
      | error e =>
        rw [hrest] at h
        exact Except.noConfusion h
      | ok p =>
        obtain ⟨tfs, g2⟩ := p
        rw [hrest] at h
        simp only [except_bind_ok, Except.ok.injEq, Prod.mk.injEq] at h
        exact h.2 ▸ ih g1 tfs g2 hrest (hf d g t g1 hr hP)

theorem buildVariantsAux_preserves {P : Table → Prop}
    (hRem : ∀ g x, P g → P (removeT g x))
    {schema : Schema} {f : String → Table → Except Err (Target × Table)}
    (hf : Preserves P f) :
    ∀ (vdefs : List (Int × String × String)) (g : Table)
      (vs : List (String × Option Target × Nat)) (g1 : Table),
      buildVariantsAux schema f vdefs g = .ok (vs, g1) → P g → P g1 := by
  intro vdefs
  induction vdefs with
  | nil =>
    intro g vs g1 h hP
    simp only [buildVariantsAux, Except.ok.injEq, Prod.mk.injEq] at h
    exact h.2 ▸ hP
  | cons w rest ih =>
    intro g vs g1 h hP
    obtain ⟨disc, name, vdecl⟩ := w
    simp only [buildVariantsAux] at h
    split at h
    · rw [except_bind_error] at h
      exact Except.noConfusion h
    · rw [except_bind_ok] at h
      cases hrest : buildVariantsAux schema f rest g with
      | error e =>
        rw [hrest] at h
        exact Except.noConfusion h
      | ok p =>
        obtain ⟨vs', g2⟩ := p
        rw [hrest] at h
        simp only [except_bind_ok, Except.ok.injEq, Prod.mk.injEq] at h
        exact h.2 ▸ ih g vs' g2 hrest hP
    · rename_i hno hsome
      cases hres : f vdecl g with
      | error e =>
        rw [hres] at h
        exact Except.noConfusion h
      | ok q =>
        obtain ⟨t, g'⟩ := q
        rw [hres] at h
        simp only [except_bind_ok] at h
        cases hrest : buildVariantsAux schema f rest (removeT g' vdecl) with
        | error e =>
          rw [hrest] at h
          exact Except.noConfusion h
        | ok p =>
          obtain ⟨vs', g2⟩ := p
          rw [hrest] at h
          simp only [except_bind_ok, Except.ok.injEq, Prod.mk.injEq] at h
          exact h.2 ▸ ih (removeT g' vdecl) vs' g2 hrest
            (hRem g' vdecl (hf vdecl g t g' hres hP))

theorem buildStep_preserves {P : Table → Prop} {po : String → Option String}
    {schema : Schema}
    {resolve : String → Table → Parent → Except Err (Target × Table)}
    (hIns : ∀ g x t, P g → Table.get? g x = none → InsCond po schema x →
      P (g ++ [(x, t)]))
    (hRem : ∀ g x, P g → P (removeT g x))
    (hres : ∀ parent, Preserves P (fun x g => resolve x g parent)) :
    ∀ parent, Preserves P (fun x g => buildStep po schema resolve x g parent) := by
  intro parent x g t g' hok0 hP
  have hok : buildStep po schema resolve x g parent = .ok (t, g') := hok0
  clear hok0
  unfold buildStep at hok
  cases hmem : Table.get? g x with
  | some t0 =>
    rw [hmem] at hok
    simp only [Except.ok.injEq, Prod.mk.injEq] at hok
    exact hok.2 ▸ hP
  | none =>
  rw [hmem] at hok
  by_cases hbig : x ∈ bigintNames
  · rw [if_pos hbig] at hok
    obtain ⟨-, rfl, hnone⟩ := insertT_ok hok
    exact hIns g x _ hP hnone (Or.inl hbig)
  · rw [if_neg hbig] at hok
    by_cases hnum : x ∈ numberNames
    · rw [if_pos hnum] at hok
      obtain ⟨-, rfl, hnone⟩ := insertT_ok hok
      exact hIns g x _ hP hnone (Or.inr (Or.inl hnum))
    · rw [if_neg hnum] at hok
      by_cases hbool : x = "bool"
      · rw [if_pos hbool] at hok
        obtain ⟨-, rfl, hnone⟩ := insertT_ok hok
        exact hIns g x _ hP hnone (Or.inr (Or.inr (Or.inl hbool)))
      · rw [if_neg hbool] at hok
        cases hpo : po x with
        | some tp =>
          rw [hpo] at hok
          simp only [] at hok
          cases hr : resolve tp g .Irrelevant with
          | error e =>
            rw [hr] at hok
            exact Except.noConfusion hok
          | ok q =>
            obtain ⟨t0, g0⟩ := q
            rw [hr] at hok
            simp only [except_bind_ok] at hok
            obtain ⟨-, rfl, hnone⟩ := insertT_ok hok
            exact hIns g0 x _ (hres .Irrelevant tp g t0 g0 hr hP) hnone
              (Or.inr (Or.inr (Or.inr (Or.inl (by simp [hpo])))))
        | none =>
        rw [hpo] at hok
        cases hdef : schema x with
        | none =>
          rw [hdef] at hok
          exact Except.noConfusion hok
        | some defn =>
        rw [hdef] at hok
        cases defn with
        | primitive n => exact Except.noConfusion hok
        | tuple es => exact Except.noConfusion hok
        | sequence lw ls el =>
          simp only [] at hok
          by_cases hlw : lw = 0
          · rw [if_pos hlw] at hok
            cases hr : resolve el g .Irrelevant with
            | error e =>
              rw [hr] at hok
              exact Except.noConfusion hok
            | ok q =>
              obtain ⟨ft, g0⟩ := q
              rw [hr] at hok
              simp only [except_bind_ok] at hok
              cases hd : elementDisplay ft with
              | error e =>
                rw [hd] at hok
                exact Except.noConfusion hok
              | ok ts =>
                rw [hd] at hok
                simp only [except_bind_ok, Except.ok.injEq,
                  Prod.mk.injEq] at hok
                exact hok.2 ▸ hres .Irrelevant el g ft g0 hr hP
          · rw [if_neg hlw] at hok
            simp only [Except.ok.injEq, Prod.mk.injEq] at hok
            exact hok.2 ▸ hP
        | enumDef tw vdefs =>
          simp only [] at hok
          by_cases htw : tw = 1
          · rw [if_pos htw] at hok
            cases hv : buildVariantsAux schema
                (fun y h => resolve y h .Enum) vdefs g with
            | error e =>
              rw [hv] at hok
              exact Except.noConfusion hok
            | ok p =>
              obtain ⟨vs, g1⟩ := p
              rw [hv] at hok
              simp only [except_bind_ok] at hok
              obtain ⟨-, rfl, hnone⟩ := insertT_ok hok
              have hg1 : P g1 := buildVariantsAux_preserves hRem
                (hres .Enum) vdefs g vs g1 hv hP
              exact hIns g1 x _ hg1 hnone
                (Or.inr (Or.inr (Or.inr (Or.inr
                  (Or.inl ⟨tw, vdefs, hdef⟩)))))
          · rw [if_neg htw] at hok
            exact Except.noConfusion hok
        | structDef fields =>
          cases fields with
          | empty => exact Except.noConfusion hok
          | named fs =>
            simp only [] at hok
            cases hfld : buildFieldsAux
                (fun y h => resolve y h .Struct) fs g with
            | error e =>
              rw [hfld] at hok
              exact Except.noConfusion hok
            | ok p =>
              obtain ⟨tfs, g1⟩ := p
              rw [hfld] at hok
              simp only [except_bind_ok] at hok
              obtain ⟨-, rfl, hnone⟩ := insertT_ok hok
              have hg1 : P g1 := buildFieldsAux_preserves
                (hres .Struct) fs g tfs g1 hfld hP
              exact hIns g1 x _ hg1 hnone
                (Or.inr (Or.inr (Or.inr (Or.inr
                  (Or.inr ⟨.named fs, hdef⟩)))))
          | unnamed us =>
            cases us with
            | nil => exact Except.noConfusion hok
            | cons a as =>
              cases as with
              | cons b bs => exact Except.noConfusion hok
              | nil =>
                simp only [] at hok
                cases hr : resolve a g parent with
                | error e =>
                  rw [hr] at hok
                  exact Except.noConfusion hok
                | ok q =>
                  obtain ⟨t0, g1⟩ := q
                  rw [hr] at hok
                  simp only [except_bind_ok] at hok
                  obtain ⟨-, rfl, hnone⟩ := insertT_ok hok
                  exact hIns g1 x _ (hres parent a g t0 g1 hr hP) hnone
                    (Or.inr (Or.inr (Or.inr (Or.inr
                      (Or.inr ⟨.unnamed [a], hdef⟩)))))

theorem buildRoots_preserves {P : Table → Prop} {po : String → Option String}
    {schema : Schema}
    (hIns : ∀ g x t, P g → Table.get? g x = none → InsCond po schema x →
      P (g ++ [(x, t)]))
    (hRem : ∀ g x, P g → P (removeT g x)) :
    ∀ (fuel : Nat) (parent : Parent),
      Preserves P (fun x g => buildRoots po schema fuel x g parent) := by
  intro fuel
  induction fuel with
  | zero =>
    intro parent x g t g' h hP
    exact Except.noConfusion h
  | succ n ih =>
    intro parent x g t g' h hP
    exact buildStep_preserves hIns hRem ih parent x g t g' h hP

theorem buildRoots_uniq {po : String → Option String} {schema : Schema} :
    ∀ (fuel : Nat) (parent : Parent),
      Preserves UniqKeys (fun x g => buildRoots po schema fuel x g parent) :=
  buildRoots_preserves
    (fun _ _ _ hP hnone _ => UniqKeys_append hP hnone)
    (fun _ _ hP => UniqKeys_removeT hP)

theorem buildRoots_absence {po : String → Option String} {schema : Schema}
    {d : String}
    (hbig : d ∉ bigintNames) (hnum : d ∉ numberNames) (hbool : ¬ d = "bool")
    (hpo : po d = none)
    (hseq : ∃ lw ls el, schema d = some (.sequence lw ls el)) :
    ∀ (fuel : Nat) (parent : Parent),
      Preserves (fun h => Table.get? h d = none)
        (fun x g => buildRoots po schema fuel x g parent) := by
  apply buildRoots_preserves
  · intro g x t hP hnone hcond
    have hxd : ¬ x = d := by
      obtain ⟨lw, ls, el, hd⟩ := hseq
      rcases hcond with hc | hc | hc | hc | ⟨tw, vsd, hc⟩ | ⟨fs, hc⟩
      · intro he
        exact hbig (he ▸ hc)
      · intro he
        exact hnum (he ▸ hc)
      · intro he
        exact hbool (he ▸ hc)
      · intro he
        rw [he, hpo] at hc
        simp at hc
      · intro he
        rw [he, hd] at hc
        simp at hc
      · intro he
        rw [he, hd] at hc
        simp at hc
    exact get?_append_single_ne hxd hP
  · intro g x hP
    exact get?_removeT_of_none hP

/-- C10 counterexample: resolving the fixed sequence `Arr3P` of elements
`P` (a named record with a `u32` field) from the empty table inserts an
entry for `u32` — a declaration that is neither the sequence nor its
element — so it is not true that only the element declaration may gain an
entry. -/
theorem sequence_element_dependencies_gain_entries :
    buildRoots po0 schemaSeq 3 "Arr3P" [] .Irrelevant =
      .ok (.wellknowns (Wellknowns.fixed_length_array "P" 3 "P"),
        [("u32", .wellknowns (Wellknowns.number "u32")), ("P", targetP)]) ∧
    ("u32" : String) ≠ "P" ∧ ("u32" : String) ≠ "Arr3P" :=
  ⟨rfl, by decide, by decide⟩

/-- C10 (amended): resolving a Sequence declaration (fixed- or
variable-length) never inserts an entry under the sequence's own
declaration name, no matter how deep the element's resolution recursed:
if the sequence declaration was absent from the table before, it is
absent after, and any further successful resolution of it from the
resulting table again leaves it without an entry — sequences are never
memoized and never appear in the table. -/
theorem sequence_resolution_never_inserts_own_name
    (po : String → Option String) (schema : Schema) (fuel : Nat)
    (d el : String) (lw ls : Nat) (g g' : Table) (parent : Parent)
    (t : Target)
    (hbig : d ∉ bigintNames) (hnum : d ∉ numberNames) (hbool : ¬ d = "bool")
    (hpo : po d = none)
    (hdef : schema d = some (.sequence lw ls el))
    (hok : buildRoots po schema fuel d g parent = .ok (t, g'))
    (hnone : Table.get? g d = none) :
    Table.get? g' d = none ∧
    (∀ (fuel2 : Nat) (parent2 : Parent) (t2 : Target) (g2 : Table),
      buildRoots po schema fuel2 d g' parent2 = .ok (t2, g2) →
      Table.get? g2 d = none) := by
  have habs := buildRoots_absence hbig hnum hbool hpo ⟨lw, ls, el, hdef⟩
  have h1 : Table.get? g' d = none := habs fuel parent d g t g' hok hnone
  exact ⟨h1, fun f2 p2 t2 g2 h2 => habs f2 p2 d g' t2 g2 h2 h1⟩

/-- Witness for `sequence_resolution_never_inserts_own_name`: after
successfully resolving the fixed sequence `Arr3P`, the resulting table
has no entry under `Arr3P`. -/
theorem sequence_resolution_never_inserts_own_name_witness :
    Table.get?
      [("u32", .wellknowns (Wellknowns.number "u32")), ("P", targetP)]
      "Arr3P" = none :=
  (sequence_resolution_never_inserts_own_name po0 schemaSeq 3 "Arr3P" "P"
    0 3 [] _ .Irrelevant _ (by decide) (by decide) (by decide) (by rfl)
    (by rfl) (by rfl) (by rfl)).1

theorem buildVariantsAux_last_payload_absent {schema : Schema}
    {f : String → Table → Except Err (Target × Table)}
    (hU : Preserves UniqKeys f) :
    ∀ (pre : List (Int × String × String)) (disc : Int) (nm p : String)
      (g : Table) (vs : List (String × Option Target × Nat)) (g1 : Table),
      UniqKeys g →
      (∀ pd, schema p = some pd → ¬ pd = .structDef .empty) →
      (schema p).isSome = true →
      buildVariantsAux schema f (pre ++ [(disc, nm, p)]) g = .ok (vs, g1) →
      Table.get? g1 p = none := by
  intro pre
  induction pre with
  | nil =>
    intro disc nm p g vs g1 hUg hne hsome h
    simp only [List.nil_append, buildVariantsAux] at h
    split at h
    · rename_i heq
      rw [heq] at hsome
      simp at hsome
    · rename_i heq
      exact absurd rfl (hne _ heq)
    · rename_i hno hsomeEq
      cases hres : f p g with
      | error e =>
        rw [hres] at h
        exact Except.noConfusion h
      | ok q =>
        obtain ⟨t, g'⟩ := q
        rw [hres] at h
        simp only [except_bind_ok, buildVariantsAux, Except.ok.injEq,
          Prod.mk.injEq] at h
        exact h.2 ▸ get?_removeT_self (hU p g t g' hres hUg)
  | cons w rest ih =>
    intro disc nm p g vs g1 hUg hne hsome h
    obtain ⟨d0, n0, p0⟩ := w
    rw [List.cons_append] at h
    simp only [buildVariantsAux] at h
    split at h
    · rw [except_bind_error] at h
      exact Except.noConfusion h
    · rw [except_bind_ok] at h
      cases hrest : buildVariantsAux schema f (rest ++ [(disc, nm, p)]) g with
      | error e =>
        rw [hrest] at h
        exact Except.noConfusion h
      | ok q =>
        obtain ⟨vs', g2⟩ := q
        rw [hrest] at h
        simp only [except_bind_ok, Except.ok.injEq, Prod.mk.injEq] at h
        exact h.2 ▸ ih disc nm p g vs' g2 hUg hne hsome hrest
    · rename_i hno hsomeEq
      cases hres : f p0 g with
      | error e =>
        rw [hres] at h
        exact Except.noConfusion h
      | ok q =>
        obtain ⟨t, g'⟩ := q
        rw [hres] at h
        simp only [except_bind_ok] at h
        cases hrest : buildVariantsAux schema f (rest ++ [(disc, nm, p)])
            (removeT g' p0) with
        | error e =>
          rw [hrest] at h
          exact Except.noConfusion h
        | ok q2 =>
          obtain ⟨vs', g2⟩ := q2
          rw [hrest] at h
          simp only [except_bind_ok, Except.ok.injEq, Prod.mk.injEq] at h
          have hU' : UniqKeys (removeT g' p0) :=
            UniqKeys_removeT (hU p0 g t g' hres hUg)
          exact h.2 ▸ ih disc nm p (removeT g' p0) vs' g2 hU' hne hsome hrest

/-- C4 counterexample: in `E { A(Q), B(R) }` of `schemaReinsert`, where
`R` has a field of `Q`, the payload `Q` of variant `A` (a non-empty
struct definition) is removed after `A`'s payload resolves but
re-inserted while `B`'s payload `R` is resolved, so immediately after the
enum resolves the table still contains an entry under `Q`. -/
theorem enum_payload_reinserted_by_later_variant :
    (buildRoots po0 schemaReinsert 10 "E" [] .Irrelevant).map
        (fun pr => pr.2.map Prod.fst) = .ok ["u32", "Q", "E"] ∧
    (buildRoots po0 schemaReinsert 10 "E" [] .Irrelevant).map
        (fun pr => (Table.get? pr.2 "Q").isSome) = .ok true ∧
    schemaReinsert "Q" = some (.structDef (.named [("x", "u32")])) :=
  ⟨rfl, rfl, rfl⟩

/-- C4 (amended): resolving a single-byte enum resolves each non-empty
variant payload under Union context and removes that payload's entry from
the table immediately afterwards; consequently the last variant's payload
declaration (when it differs from the enum's own name) has no table entry
immediately after the enum resolves.  (An earlier variant's payload can
be re-inserted while a later variant's payload resolves.) -/
theorem enum_final_payload_absent
    (po : String → Option String) (schema : Schema) (fuel : Nat)
    (d : String) (pre : List (Int × String × String)) (disc : Int)
    (nm p : String) (g gf : Table) (parent : Parent) (t : Target)
    (hmem : Table.get? g d = none)
    (hbig : d ∉ bigintNames) (hnum : d ∉ numberNames) (hbool : ¬ d = "bool")
    (hpo : po d = none)
    (hdef : schema d = some (.enumDef 1 (pre ++ [(disc, nm, p)])))
    (hne : ∀ pd, schema p = some pd → ¬ pd = .structDef .empty)
    (hsome : (schema p).isSome = true)
    (hU : UniqKeys g) (hpd : ¬ p = d)
    (hok : buildRoots po schema (fuel + 1) d g parent = .ok (t, gf)) :
    Table.get? gf p = none := by
  have hstep : buildRoots po schema (fuel + 1) d g parent =
      buildStep po schema (buildRoots po schema fuel) d g parent := rfl
  rw [hstep] at hok
  unfold buildStep at hok
  rw [hmem, if_neg hbig, if_neg hnum, if_neg hbool, hpo, hdef] at hok
  simp only [] at hok
  rw [if_pos trivial] at hok
  cases hv : buildVariantsAux schema
      (fun y h => buildRoots po schema fuel y h .Enum)
      (pre ++ [(disc, nm, p)]) g with
  | error e =>
    rw [hv] at hok
    exact Except.noConfusion hok
  | ok q =>
    obtain ⟨vs, g1⟩ := q
    rw [hv] at hok
    simp only [except_bind_ok] at hok
    obtain ⟨-, rfl, hnone⟩ := insertT_ok hok
    have hg1 : Table.get? g1 p = none :=
      buildVariantsAux_last_payload_absent (buildRoots_uniq fuel .Enum)
        pre disc nm p g vs g1 hU hne hsome hv
    exact get?_append_single_ne (fun hh => hpd hh.symm) hg1

/-- Witness for `enum_final_payload_absent`: after the enum `E` of
`schemaEnum` resolves, its last variant's payload `PB` has no entry in
the resulting table. -/
theorem enum_final_payload_absent_witness :
    Table.get?
      [("u32", .wellknowns (Wellknowns.number "u32")),
       ("E", .enum "EEnum"
        [("AVariant", none, 0),
         ("BVariant",
          some (.cls "PB" [("v", .wellknowns (Wellknowns.number "u32"))]),
          1)])]
      "PB" = none := by
  refine enum_final_payload_absent po0 schemaEnum 2 "E" [(0, "A", "EmptyA")]
    1 "B" "PB" [] _ .Irrelevant _ (by rfl) (by decide) (by decide)
    (by decide) (by rfl) (by rfl) ?_ (by rfl) (by simp [UniqKeys])
    (by decide) (by rfl)
  intro pd hpd
  have h2 : some (Definition.structDef (Fields.named [("v", "u32")])) =
      some pd := hpd
  injection h2 with h3
  rw [← h3]
  decide

/-- Witness for `enum_union_resolution`: the enum `E {A: empty, B(PB)}`
resolves to a Union `EEnum` with variants `AVariant` (discriminant 0, no
payload) and `BVariant` (discriminant 1, payload `PB`) in schema order,
inserted under `E`; `PB`'s own entry is no longer in the table. -/
theorem enum_union_resolution_witness :
    buildRoots po0 schemaEnum 3 "E" [] .Irrelevant =
      .ok (.enum "EEnum"
          [("AVariant", none, 0),
           ("BVariant",
            some (.cls "PB" [("v", .wellknowns (Wellknowns.number "u32"))]),
            1)],
        [("u32", .wellknowns (Wellknowns.number "u32")),
         ("E", .enum "EEnum"
          [("AVariant", none, 0),
           ("BVariant",
            some (.cls "PB" [("v", .wellknowns (Wellknowns.number "u32"))]),
            1)])]) := by
  exact (enum_union_resolution po0 schemaEnum 2 "E"
    [(0, "A", "EmptyA"), (1, "B", "PB")] [] _ .Irrelevant _
    (by rfl) (by decide) (by decide) (by decide) (by rfl) (by rfl) (by rfl)
    (by rfl)).1

end BorshGenTs
